import Mathlib

/-
Verification development for the sunposition repository (src/app.py).

The core pipeline of app.py is shallowly embedded here:
  * pandas DataFrames become a Frame structure: a timestamp index (seconds,
    as Nat) together with an ordered association list of named real-valued
    columns; column assignment mirrors pandas (overwrite in place when the
    name exists, append otherwise);
  * the geometry helpers direction_vec and irradiation_factor are embedded
    over the real numbers;
  * the external pvlib provider chain is embedded as a structure of
    deterministic functions, since app.py treats it as an opaque
    deterministic collaborator;
  * pd.Grouper with daily frequency is embedded, for the sorted time
    indices the app produces, as grouping of consecutive runs of equal
    calendar day (dayRuns);
  * scipy.integrate.trapezoid with a uniform dx is embedded as trapezoid;
  * Timedelta.seconds is the seconds component of the duration, hence the
    modulus by 86400 in computeDx;
  * the assert statement and the out-of-bounds indexing in
    integrate_joined_data become an Except result.
-/

namespace Sunposition

/-! ## Definitions: the shallow embedding of the app.py pipeline -/

/-- Column names occurring in the app.py data pipeline.  String column
names of the source are embedded injectively as constructors; the indexed
constructors correspond to the f-string families area_i_direction_factor,
area_i_irradiation and area_i_integrated. -/
inductive ColName where
  | dni
  | dhi
  | ghi
  | apparent_elevation
  | azimuth
  | direction_factor (i : Nat)
  | irradiation (i : Nat)
  | irradiation_sum
  | integrated (i : Nat)
  | integrated_sum
deriving DecidableEq

/-- A pandas DataFrame with a timestamp index: the index holds timestamps
in seconds, cols is the ordered list of named columns. -/
structure Frame where
  index : List Nat
  cols : List (ColName × List ℝ)
deriving Inhabited

/-- Lookup of a column by name, first occurrence, like df[name]. -/
def lookupCol : List (ColName × List ℝ) → ColName → Option (List ℝ)
  | [], _ => none
  | (m, v) :: rest, n => if m = n then some v else lookupCol rest n

/-- Column assignment df[name] = v: overwrite the first occurrence in
place, append at the end when the name is absent. -/
def setCol : List (ColName × List ℝ) → ColName → List ℝ → List (ColName × List ℝ)
  | [], n, v => [(n, v)]
  | (m, w) :: rest, n, v => if m = n then (n, v) :: rest else (m, w) :: setCol rest n v

/-- Reading a column of a frame, defaulting to the empty column. -/
def getCol (f : Frame) (n : ColName) : List ℝ :=
  (lookupCol f.cols n).getD []

/-- Frame-level column assignment. -/
def Frame.set (f : Frame) (n : ColName) (v : List ℝ) : Frame :=
  ⟨f.index, setCol f.cols n v⟩

/-- Vectors are embedded as real triples. -/
abbrev Vec3 : Type := ℝ × ℝ × ℝ

/-- Dot product on triples, embedding the @ operator of numpy on
3-element arrays. -/
def dot3 (v w : Vec3) : ℝ :=
  v.1 * w.1 + v.2.1 * w.2.1 + v.2.2 * w.2.2

/-- Pointwise negation of a triple. -/
def neg3 (v : Vec3) : Vec3 :=
  (-v.1, -v.2.1, -v.2.2)

/-- A triple is a unit vector when its Euclidean norm is 1, equivalently
when the sum of the squared components is 1. -/
def unitVec (v : Vec3) : Prop :=
  v.1 * v.1 + v.2.1 * v.2.1 + v.2.2 * v.2.2 = 1

/-- Embedding of direction_vec (app.py lines 17-22): np.radians converts
degrees to radians, and the result is the triple
(sin az * cos el, cos az * cos el, sin el). -/
noncomputable def direction_vec (elevation azimuth : ℝ) : Vec3 :=
  let se := Real.sin (elevation * (Real.pi / 180))
  let ce := Real.cos (elevation * (Real.pi / 180))
  let sa := Real.sin (azimuth * (Real.pi / 180))
  let ca := Real.cos (azimuth * (Real.pi / 180))
  (sa * ce, ca * ce, se)

/-- Embedding of irradiation_factor (app.py lines 25-26):
np.max([sun_vec @ window_vec, 0]). -/
noncomputable def irradiation_factor (sun_vec window_vec : Vec3) : ℝ :=
  max (dot3 sun_vec window_vec) 0

/-- An area is a dict in app.py; the three numeric fields may be absent,
and join_areas reads each of them with the dict get method and the
default 0.  The label field plays no role in the computation. -/
structure Area where
  azimuth : Option ℝ
  elevation : Option ℝ
  size : Option ℝ
deriving Inhabited

/-- The direction-factor column computed for one area in the loop body of
join_areas: the per-row apply of irradiation_factor over the columns
apparent_elevation and azimuth of the frame. -/
noncomputable def factorsOf (f : Frame) (a : Area) : List ℝ :=
  let area_direction := direction_vec (a.elevation.getD 0) (a.azimuth.getD 0)
  List.zipWith (fun e az => irradiation_factor (direction_vec e az) area_direction)
    (getCol f ColName.apparent_elevation) (getCol f ColName.azimuth)

/-- The irradiation column computed for one area in the loop body of
join_areas: size * (factor * dni + dhi), row-wise. -/
noncomputable def irrOf (f : Frame) (a : Area) : List ℝ :=
  List.zipWith (fun fct p => a.size.getD 0 * (fct * p.1 + p.2))
    (factorsOf f a) ((getCol f ColName.dni).zip (getCol f ColName.dhi))

/-- The for loop of join_areas over enumerate(areas), carrying the running
enumeration index i. -/
noncomputable def joinLoop : Frame → Nat → List Area → Frame
  | f, _, [] => f
  | f, i, a :: rest =>
      joinLoop ((f.set (ColName.direction_factor i) (factorsOf f a)).set
        (ColName.irradiation i) (irrOf f a)) (i + 1) rest

/-- Row-wise sum of a list of columns over n rows, embedding the pandas
sum over the column axis. -/
def rowSum (n : Nat) (cols : List (List ℝ)) : List ℝ :=
  cols.foldl (fun acc c => List.zipWith (fun x y => x + y) acc c) (List.replicate n 0)

/-- Embedding of join_areas (app.py lines 60-77): the loop adds the two
columns per area, then, when the area list is non-empty, the
irradiation_sum column is assigned as the row-wise sum of the per-area
irradiation columns. -/
noncomputable def join_areas (base : Frame) (areas : List Area) : Frame :=
  let f := joinLoop base 0 areas
  if areas.isEmpty then f
  else f.set ColName.irradiation_sum
    (rowSum f.index.length ((List.range areas.length).map
      (fun ii => getCol f (ColName.irradiation ii))))

/-- One row of the solar-position result of the provider. -/
structure SolPos where
  apparent_zenith : ℝ
  apparent_elevation : ℝ
  azimuth : ℝ

/-- One row of the ineichen clear-sky result of the provider. -/
structure Irrad where
  ghi : ℝ
  dni : ℝ
  dhi : ℝ

/-- The external collaborators of app.py, embedded as a record of
deterministic per-timestamp functions.  Timestamps are seconds as Nat;
get_solarposition takes (time, latitude, longitude) in this order, as the
pvlib contract documents; date_range embeds pd.date_range applied to
(start, end, freq, tz). -/
structure Provider where
  date_range : Nat → Nat → Nat → Nat → List Nat
  get_solarposition : Nat → ℝ → ℝ → SolPos
  get_relative_airmass : ℝ → ℝ
  get_absolute_airmass : ℝ → ℝ → ℝ
  lookup_linke_turbidity : Nat → ℝ → ℝ → ℝ
  get_extra_radiation : Nat → ℝ
  ineichen : ℝ → ℝ → ℝ → ℝ → ℝ → Irrad
  alt2pres : ℝ → ℝ

/-- Embedding of calculate_data (app.py lines 33-50).  The parameter
ambientAltitude stands for the module-level variable altitude, which the
body of calculate_data reads directly in the ineichen call even though it
is not among the function arguments. -/
def calculate_data (P : Provider) (ambientAltitude : ℝ)
    (min_date max_date freq : Nat) (latitude longitude : ℝ) (tz : Nat)
    (pressure : ℝ) : Frame :=
  let times := P.date_range min_date max_date freq tz
  let solpos := times.map (fun t => P.get_solarposition t latitude longitude)
  let apparent_zenith := solpos.map (fun s => s.apparent_zenith)
  let airmass := apparent_zenith.map P.get_relative_airmass
  let airmass2 := airmass.map (fun am => P.get_absolute_airmass am pressure)
  let linke_turbidity := times.map (fun t => P.lookup_linke_turbidity t latitude longitude)
  let dni_extra := times.map P.get_extra_radiation
  let ineichenRows := List.zipWith (fun z ald =>
      P.ineichen z ald.1 ald.2.1 ambientAltitude ald.2.2)
    apparent_zenith (airmass2.zip (linke_turbidity.zip dni_extra))
  ⟨times,
    [(ColName.ghi, ineichenRows.map (fun r => r.ghi)),
     (ColName.dni, ineichenRows.map (fun r => r.dni)),
     (ColName.dhi, ineichenRows.map (fun r => r.dhi)),
     (ColName.apparent_elevation, solpos.map (fun s => s.apparent_elevation)),
     (ColName.azimuth, solpos.map (fun s => s.azimuth))]⟩

/-- Embedding of get_solar_vector (app.py lines 135-148).  The single
instant datetime.combine(plot_date, time_of_day) is the timestamp t; the
source invokes the provider as get_solarposition(t, long, lat), so the
longitude value is passed in the latitude slot and vice versa, and the
single returned row is fed to direction_vec. -/
noncomputable def get_solar_vector (P : Provider) (t : Nat) (long lat : ℝ) : Vec3 :=
  let solar_position := P.get_solarposition t long lat
  direction_vec solar_position.apparent_elevation solar_position.azimuth

/-- Calendar day of a timestamp in seconds. -/
def dayOf (t : Nat) : Nat := t / 86400

/-- Grouping of a list into maximal consecutive runs whose elements share
the same key.  For the sorted time indices produced by pd.date_range this
is the grouping pd.Grouper(freq="D") performs on the frame. -/
def dayRuns {α : Type} (key : α → Nat) : List α → List (List α)
  | [] => []
  | a :: l =>
    match dayRuns key l with
    | [] => [[a]]
    | [] :: gs => [a] :: gs
    | (b :: g) :: gs =>
      if key a = key b then (a :: b :: g) :: gs else [a] :: (b :: g) :: gs

/-- Embedding of the dx computation of integrate_joined_data:
joined_data.index[:2].diff()[-1] followed by the Timedelta type assertion,
and later the read of the seconds component.  On an empty index the [-1]
access raises IndexError; on a single-element index diff yields NaT and
the assert fails; otherwise dx is the Timedelta t1 - t0 whose seconds
component is the duration modulo 86400. -/
def computeDx : List Nat → Except String Nat
  | [] => Except.error "IndexError: index -1 is out of bounds"
  | [_] => Except.error "AssertionError: dx is NaT, not a Timedelta"
  | t0 :: t1 :: _ => Except.ok ((t1 - t0) % 86400)

/-- Trapezoidal rule with uniform step dx, embedding
scipy.integrate.trapezoid(g, dx=dx). -/
noncomputable def trapezoid (dx : ℝ) : List ℝ → ℝ
  | a :: b :: rest => dx * (a + b) / 2 + trapezoid dx (b :: rest)
  | _ => 0

/-- Embedding of integrate_joined_data (app.py lines 80-102).  numAreas is
the length of the session-state area list used to build the column names.
For each area, the irradiation column is grouped by calendar day and each
group is integrated with the trapezoidal rule; with more than one area an
integrated_sum column is added; finally the last row is dropped and all
values are divided by 3600000.  With zero areas pd.DataFrame of an empty
dict has no rows at all, hence the empty frame in that branch. -/
noncomputable def integrate_joined_data (numAreas : Nat) (f : Frame) : Except String Frame :=
  match computeDx f.index with
  | Except.error e => Except.error e
  | Except.ok dxs =>
    let intCols := (List.range numAreas).map (fun i =>
      (ColName.integrated i,
        (dayRuns (fun p => dayOf p.1) (f.index.zip (getCol f (ColName.irradiation i)))).map
          (fun g => trapezoid (dxs : ℝ) (g.map Prod.snd))))
    let pdf : Frame :=
      if numAreas = 0 then ⟨[], []⟩
      else ⟨(dayRuns dayOf f.index).map (fun g => dayOf (g.headD 0)), intCols⟩
    let pdf2 : Frame :=
      if 1 < numAreas then
        pdf.set ColName.integrated_sum (rowSum pdf.index.length (intCols.map Prod.snd))
      else pdf
    Except.ok ⟨pdf2.index.dropLast,
      pdf2.cols.map (fun nc => (nc.1, nc.2.dropLast.map (fun x => x / 3600000)))⟩

/-- Demo base frame used to instantiate hypotheses of the join_areas
claims on a concrete input. -/
def bDemo : Frame :=
  ⟨[0, 3600],
   [(ColName.dni, [1, 1]), (ColName.dhi, [0, 0]), (ColName.ghi, [1, 1]),
    (ColName.apparent_elevation, [0, 0]), (ColName.azimuth, [0, 0])]⟩

/-- Demo area with all fields absent. -/
def aDemo : Area := ⟨none, none, none⟩

/-- Well-formedness of a base frame: the four columns join_areas reads
have as many rows as the index. -/
def baseLen (b : Frame) : Prop :=
  (getCol b ColName.apparent_elevation).length = b.index.length ∧
  (getCol b ColName.azimuth).length = b.index.length ∧
  (getCol b ColName.dni).length = b.index.length ∧
  (getCol b ColName.dhi).length = b.index.length

instance (b : Frame) : Decidable (baseLen b) := by
  unfold baseLen; infer_instance

/-- An area with every optional field replaced by its explicit default
value 0, the value the dict get calls of join_areas produce. -/
def fillDefaults (a : Area) : Area :=
  ⟨some (a.azimuth.getD 0), some (a.elevation.getD 0), some (a.size.getD 0)⟩

/-- Demo unit vector for the C9 witness. -/
def vDemo : Vec3 := ((0:ℝ), (0:ℝ), (1:ℝ))

/-- Demo frame with a single timestamp. -/
def f1Demo : Frame := ⟨[0], []⟩

/-- Demo frame with two timestamps. -/
def f2Demo : Frame := ⟨[0, 3600], []⟩

/-- Provider used to exhibit the argument swap in get_solar_vector: the
apparent elevation it reports is exactly the value it received in its
latitude parameter. -/
def PdemoSwap : Provider :=
  { date_range := fun _ _ _ _ => [0]
    get_solarposition := fun _ lat _ => ⟨0, lat, 0⟩
    get_relative_airmass := fun z => z
    get_absolute_airmass := fun am _ => am
    lookup_linke_turbidity := fun _ _ _ => 0
    get_extra_radiation := fun _ => 0
    ineichen := fun _ _ _ _ _ => ⟨0, 0, 0⟩
    alt2pres := fun a => a }

/-- Provider used to exhibit the ambient-altitude dependence of
calculate_data: its ineichen model returns the altitude it is given. -/
def PdemoAlt : Provider :=
  { date_range := fun _ _ _ _ => [0]
    get_solarposition := fun _ _ _ => ⟨0, 0, 0⟩
    get_relative_airmass := fun z => z
    get_absolute_airmass := fun am _ => am
    lookup_linke_turbidity := fun _ _ _ => 0
    get_extra_radiation := fun _ => 0
    ineichen := fun _ _ _ alt _ => ⟨alt, alt, alt⟩
    alt2pres := fun a => a }

/-- Calendar days of a time index, in order of appearance, each once: the
claim-side description of the day-bucket index. -/
def daysOf (index : List Nat) : List Nat := (index.map dayOf).dedup

/-- Claim-side day bucket of a column: the values of column c on the rows
whose timestamp falls on calendar day d, in order. -/
def bucketOf (f : Frame) (c : ColName) (d : Nat) : List ℝ :=
  ((f.index.zip (getCol f c)).filter (fun p => dayOf p.1 == d)).map Prod.snd

/-- Frame exhibiting the zero-area behaviour of the integrator: two
timestamps on two calendar days and no area columns. -/
def c3cFrame : Frame := ⟨[0, 86400], []⟩

/-- Demo joined frame for the C3 witness: two hourly timestamps on one
day and one area irradiation column. -/
def c3wFrame : Frame := ⟨[0, 3600], [(ColName.irradiation 0, [0, 0])]⟩

/-- Hourly 49-sample index starting at the midnight of day 0, the index
the 2-full-day TimeWindow at 1-hour frequency produces. -/
def hourly49 : List Nat := (List.range 49).map (fun k => k * 3600)

/-- Concrete joined frame over hourly49 with one area column. -/
def c2cFrame : Frame := ⟨hourly49, [(ColName.irradiation 0, List.replicate 49 0)]⟩

/-- Demo joined frame for the C2 witness: the hourly 49-sample two-day
index starting at the midnight of day 0, with an all-zero irradiation
column. -/
def c2wFrame : Frame :=
  ⟨(List.range 49).map (fun k => 0 * 86400 + k * 3600),
    [(ColName.irradiation 0, List.replicate 49 0)]⟩

/-! ## Theorems -/

theorem lookupCol_setCol (cols : List (ColName × List ℝ)) (n m : ColName) (v : List ℝ) :
    lookupCol (setCol cols n v) m = if m = n then some v else lookupCol cols m := by
  induction cols with
  | nil =>
    rcases eq_or_ne m n with h | h
    · subst h; simp [setCol, lookupCol]
    · simp [setCol, lookupCol, h, h.symm]
  | cons p rest ih =>
    obtain ⟨k, w⟩ := p
    rcases eq_or_ne k n with hk | hk
    · subst hk
      rcases eq_or_ne m k with hm | hm
      · subst hm; simp [setCol, lookupCol]
      · simp [setCol, lookupCol, hm, hm.symm]
    · rcases eq_or_ne k m with hm | hm
      · subst hm
        simp [setCol, lookupCol, hk, fun h : k = n => hk h]
      · simp [setCol, lookupCol, hk, hm, ih]

theorem setCol_eq_self (cols : List (ColName × List ℝ)) (n : ColName) (v : List ℝ)
    (h : lookupCol cols n = some v) : setCol cols n v = cols := by
  induction cols with
  | nil => simp [lookupCol] at h
  | cons p rest ih =>
    obtain ⟨k, w⟩ := p
    by_cases hk : k = n
    · subst hk
      simp [lookupCol] at h
      simp [setCol, h]
    · simp [lookupCol, hk] at h
      simp [setCol, hk, ih h]

theorem getCol_set (f : Frame) (n m : ColName) (v : List ℝ) :
    getCol (f.set n v) m = if m = n then v else getCol f m := by
  by_cases h : m = n <;> simp [getCol, Frame.set, lookupCol_setCol, h]

theorem index_set (f : Frame) (n : ColName) (v : List ℝ) :
    (f.set n v).index = f.index := rfl

theorem Frame.set_eq_self (f : Frame) (n : ColName) (v : List ℝ)
    (h : lookupCol f.cols n = some v) : f.set n v = f := by
  cases f with
  | mk idx cols => simp [Frame.set, setCol_eq_self _ _ _ h]

theorem factorsOf_set_df (f : Frame) (i : Nat) (v : List ℝ) (a : Area) :
    factorsOf (f.set (ColName.direction_factor i) v) a = factorsOf f a := by
  simp [factorsOf, getCol_set]

theorem factorsOf_set_irr (f : Frame) (i : Nat) (v : List ℝ) (a : Area) :
    factorsOf (f.set (ColName.irradiation i) v) a = factorsOf f a := by
  simp [factorsOf, getCol_set]

theorem irrOf_set_df (f : Frame) (i : Nat) (v : List ℝ) (a : Area) :
    irrOf (f.set (ColName.direction_factor i) v) a = irrOf f a := by
  simp [irrOf, factorsOf_set_df, getCol_set]

theorem irrOf_set_irr (f : Frame) (i : Nat) (v : List ℝ) (a : Area) :
    irrOf (f.set (ColName.irradiation i) v) a = irrOf f a := by
  simp [irrOf, factorsOf_set_irr, getCol_set]

theorem factorsOf_congr (f g : Frame)
    (he : getCol g ColName.apparent_elevation = getCol f ColName.apparent_elevation)
    (ha : getCol g ColName.azimuth = getCol f ColName.azimuth) (a : Area) :
    factorsOf g a = factorsOf f a := by
  simp [factorsOf, he, ha]

theorem irrOf_congr (f g : Frame)
    (he : getCol g ColName.apparent_elevation = getCol f ColName.apparent_elevation)
    (ha : getCol g ColName.azimuth = getCol f ColName.azimuth)
    (hd : getCol g ColName.dni = getCol f ColName.dni)
    (hh : getCol g ColName.dhi = getCol f ColName.dhi) (a : Area) :
    irrOf g a = irrOf f a := by
  simp [irrOf, factorsOf_congr f g he ha, hd, hh]

theorem joinLoop_index (l : List Area) : ∀ (f : Frame) (k : Nat),
    (joinLoop f k l).index = f.index := by
  induction l with
  | nil => intro f k; rfl
  | cons a rest ih => intro f k; rw [joinLoop, ih]; rfl

theorem joinLoop_lookup (l : List Area) : ∀ (f : Frame) (k : Nat) (c : ColName),
    (∀ i, k ≤ i → c ≠ ColName.direction_factor i ∧ c ≠ ColName.irradiation i) →
    lookupCol (joinLoop f k l).cols c = lookupCol f.cols c := by
  induction l with
  | nil => intro f k c _; rfl
  | cons a rest ih =>
    intro f k c h
    rw [joinLoop, ih _ (k + 1) c (fun i hi => h i (by omega))]
    have h1 := h k le_rfl
    simp [Frame.set, lookupCol_setCol, h1.1, h1.2]

theorem joinLoop_getCol (l : List Area) (f : Frame) (k : Nat) (c : ColName)
    (h : ∀ i, k ≤ i → c ≠ ColName.direction_factor i ∧ c ≠ ColName.irradiation i) :
    getCol (joinLoop f k l) c = getCol f c := by
  simp [getCol, joinLoop_lookup l f k c h]

theorem joinLoop_lookup_df (l : List Area) : ∀ (f : Frame) (k i : Nat), k ≤ i → i < k + l.length →
    lookupCol (joinLoop f k l).cols (ColName.direction_factor i) =
      some (factorsOf f (l.getD (i - k) default)) := by
  induction l with
  | nil => intro f k i h1 h2; simp at h2; omega
  | cons a rest ih =>
    intro f k i h1 h2
    rcases eq_or_lt_of_le h1 with rfl | hlt
    · rw [joinLoop, joinLoop_lookup rest _ (k + 1) _ ?_]
      · simp [Frame.set, lookupCol_setCol, Nat.sub_self]
      · intro j hj
        refine ⟨fun hc => ?_, fun hc => ?_⟩ <;> simp at hc <;> omega
    · rw [joinLoop, ih _ (k + 1) i (by omega) (by simp at h2 ⊢; omega)]
      rw [factorsOf_set_irr, factorsOf_set_df]
      have hik : i - k = (i - (k + 1)) + 1 := by omega
      rw [hik]
      rfl

theorem joinLoop_lookup_irr (l : List Area) : ∀ (f : Frame) (k i : Nat), k ≤ i → i < k + l.length →
    lookupCol (joinLoop f k l).cols (ColName.irradiation i) =
      some (irrOf f (l.getD (i - k) default)) := by
  induction l with
  | nil => intro f k i h1 h2; simp at h2; omega
  | cons a rest ih =>
    intro f k i h1 h2
    rcases eq_or_lt_of_le h1 with rfl | hlt
    · rw [joinLoop, joinLoop_lookup rest _ (k + 1) _ ?_]
      · simp [Frame.set, lookupCol_setCol, Nat.sub_self]
      · intro j hj
        refine ⟨fun hc => ?_, fun hc => ?_⟩ <;> simp at hc <;> omega
    · rw [joinLoop, ih _ (k + 1) i (by omega) (by simp at h2 ⊢; omega)]
      rw [irrOf_set_irr, irrOf_set_df]
      have hik : i - k = (i - (k + 1)) + 1 := by omega
      rw [hik]
      rfl

theorem joinLoop_fix (l : List Area) : ∀ (g : Frame) (k : Nat),
    (∀ j, j < l.length →
      lookupCol g.cols (ColName.direction_factor (k + j)) =
        some (factorsOf g (l.getD j default)) ∧
      lookupCol g.cols (ColName.irradiation (k + j)) =
        some (irrOf g (l.getD j default))) →
    joinLoop g k l = g := by
  induction l with
  | nil => intro g k _; rfl
  | cons a rest ih =>
    intro g k h
    have h0 := h 0 (by simp)
    simp only [Nat.add_zero, List.getD_cons_zero] at h0
    rw [joinLoop, Frame.set_eq_self g _ _ h0.1, Frame.set_eq_self g _ _ h0.2]
    exact ih g (k + 1) (fun j hj => by
      have := h (j + 1) (by simpa using Nat.succ_lt_succ hj)
      simpa [Nat.add_comm, Nat.add_assoc, Nat.add_left_comm] using this)

theorem join_areas_nil (b : Frame) : join_areas b [] = b := rfl

theorem join_areas_cons (b : Frame) (a0 : Area) (l0 : List Area) :
    join_areas b (a0 :: l0) = (joinLoop b 0 (a0 :: l0)).set ColName.irradiation_sum
      (rowSum (joinLoop b 0 (a0 :: l0)).index.length ((List.range (a0 :: l0).length).map
        (fun ii => getCol (joinLoop b 0 (a0 :: l0)) (ColName.irradiation ii)))) := rfl

theorem join_areas_index (b : Frame) (areas : List Area) :
    (join_areas b areas).index = b.index := by
  cases areas with
  | nil => rfl
  | cons a0 l0 => rw [join_areas_cons]; exact joinLoop_index _ b 0

theorem join_areas_lookup (b : Frame) (areas : List Area) (c : ColName)
    (h : ∀ i, c ≠ ColName.direction_factor i ∧ c ≠ ColName.irradiation i)
    (hs : c ≠ ColName.irradiation_sum) :
    lookupCol (join_areas b areas).cols c = lookupCol b.cols c := by
  cases areas with
  | nil => rfl
  | cons a0 l0 =>
    rw [join_areas_cons]
    show lookupCol (setCol _ ColName.irradiation_sum _) c = _
    rw [lookupCol_setCol]
    simp only [hs, if_false]
    exact joinLoop_lookup (a0 :: l0) b 0 c (fun i _ => h i)

/-- Claim C10: join_areas leaves the pre-existing base columns (dni, dhi,
ghi, apparent_elevation, azimuth) untouched in every row, and also leaves
the index untouched: it only assigns per-area and sum columns, whose names
differ from every base column name. -/
theorem c10_join_areas_preserves_base_columns (b : Frame) (areas : List Area) (c : ColName)
    (h : c ∈ [ColName.dni, ColName.dhi, ColName.ghi,
      ColName.apparent_elevation, ColName.azimuth]) :
    lookupCol (join_areas b areas).cols c = lookupCol b.cols c ∧
      (join_areas b areas).index = b.index := by
  refine ⟨join_areas_lookup b areas c ?_ ?_, join_areas_index b areas⟩
  · intro i; fin_cases h <;> exact ⟨by simp, by simp⟩
  · fin_cases h <;> simp

/-- Witness for C10 at a concrete base frame, area list and column. -/
theorem c10_witness :
    ColName.dni ∈ [ColName.dni, ColName.dhi, ColName.ghi,
      ColName.apparent_elevation, ColName.azimuth] ∧
    (lookupCol (join_areas bDemo [aDemo]).cols ColName.dni = lookupCol bDemo.cols ColName.dni ∧
      (join_areas bDemo [aDemo]).index = bDemo.index) :=
  ⟨by decide, c10_join_areas_preserves_base_columns bDemo [aDemo] ColName.dni (by decide)⟩

/-- Claim C4: join_areas is idempotent; applying it a second time with the
same area list recomputes every per-area column and the sum column from
the unchanged base columns and overwrites each of them in place with the
value it already has, so the frame is unchanged. -/
theorem c4_join_areas_idempotent (b : Frame) (areas : List Area) :
    join_areas (join_areas b areas) areas = join_areas b areas := by
  cases areas with
  | nil => rfl
  | cons a0 l0 =>
    have hg : join_areas b (a0 :: l0)
        = (joinLoop b 0 (a0 :: l0)).set ColName.irradiation_sum
            (rowSum (joinLoop b 0 (a0 :: l0)).index.length
              ((List.range (a0 :: l0).length).map
                (fun ii => getCol (joinLoop b 0 (a0 :: l0)) (ColName.irradiation ii)))) :=
      join_areas_cons b a0 l0
    rw [hg]
    set F := joinLoop b 0 (a0 :: l0) with hF
    set S := rowSum F.index.length ((List.range (a0 :: l0).length).map
      (fun ii => getCol F (ColName.irradiation ii))) with hS
    have hlookg : ∀ c : ColName, c ≠ ColName.irradiation_sum →
        lookupCol (F.set ColName.irradiation_sum S).cols c = lookupCol F.cols c := by
      intro c hc
      show lookupCol (setCol F.cols ColName.irradiation_sum S) c = lookupCol F.cols c
      rw [lookupCol_setCol]
      simp [hc]
    have hgbase : ∀ c : ColName,
        (∀ i, c ≠ ColName.direction_factor i ∧ c ≠ ColName.irradiation i) →
        c ≠ ColName.irradiation_sum →
        getCol (F.set ColName.irradiation_sum S) c = getCol b c := by
      intro c h1 h2
      have hx := hlookg c h2
      have h3 := joinLoop_lookup (a0 :: l0) b 0 c (fun i _ => h1 i)
      simp [getCol, hx, hF, h3]
    have hfac : ∀ a : Area, factorsOf (F.set ColName.irradiation_sum S) a = factorsOf b a := by
      intro a
      exact factorsOf_congr b _ (hgbase _ (fun i => ⟨by simp, by simp⟩) (by simp))
        (hgbase _ (fun i => ⟨by simp, by simp⟩) (by simp)) a
    have hirra : ∀ a : Area, irrOf (F.set ColName.irradiation_sum S) a = irrOf b a := by
      intro a
      exact irrOf_congr b _ (hgbase _ (fun i => ⟨by simp, by simp⟩) (by simp))
        (hgbase _ (fun i => ⟨by simp, by simp⟩) (by simp))
        (hgbase _ (fun i => ⟨by simp, by simp⟩) (by simp))
        (hgbase _ (fun i => ⟨by simp, by simp⟩) (by simp)) a
    have hFdf : ∀ j, j < (a0 :: l0).length →
        lookupCol F.cols (ColName.direction_factor j)
          = some (factorsOf b ((a0 :: l0).getD j default)) := by
      intro j hj
      have := joinLoop_lookup_df (a0 :: l0) b 0 j (Nat.zero_le j) (by omega)
      simpa using this
    have hFirr : ∀ j, j < (a0 :: l0).length →
        lookupCol F.cols (ColName.irradiation j)
          = some (irrOf b ((a0 :: l0).getD j default)) := by
      intro j hj
      have := joinLoop_lookup_irr (a0 :: l0) b 0 j (Nat.zero_le j) (by omega)
      simpa using this
    have hfix : joinLoop (F.set ColName.irradiation_sum S) 0 (a0 :: l0)
        = F.set ColName.irradiation_sum S := by
      apply joinLoop_fix
      intro j hj
      refine ⟨?_, ?_⟩
      · rw [Nat.zero_add, hlookg _ (by simp), hFdf j hj, hfac]
      · rw [Nat.zero_add, hlookg _ (by simp), hFirr j hj, hirra]
    rw [join_areas_cons, hfix]
    have hcols : (List.range (a0 :: l0).length).map
        (fun ii => getCol (F.set ColName.irradiation_sum S) (ColName.irradiation ii))
        = (List.range (a0 :: l0).length).map (fun ii => getCol F (ColName.irradiation ii)) := by
      apply List.map_congr_left
      intro ii _
      have hx := hlookg (ColName.irradiation ii) (by simp)
      simp [getCol, hx]
    have hidx : (F.set ColName.irradiation_sum S).index = F.index := rfl
    rw [hidx, hcols, ← hS]
    apply Frame.set_eq_self
    show lookupCol (setCol F.cols ColName.irradiation_sum S) ColName.irradiation_sum = some S
    rw [lookupCol_setCol]
    simp

theorem irrOf_length (b : Frame) (a : Area) (hb : baseLen b) :
    (irrOf b a).length = b.index.length := by
  obtain ⟨h1, h2, h3, h4⟩ := hb
  simp [irrOf, factorsOf, h1, h2, h3, h4]

theorem getD_zipWith_add (xs : List ℝ) : ∀ (ys : List ℝ) (r : Nat), r < xs.length →
    r < ys.length →
    (List.zipWith (fun x y => x + y) xs ys).getD r 0 = xs.getD r 0 + ys.getD r 0 := by
  induction xs with
  | nil => intro ys r h1 _; simp at h1
  | cons x xs ih =>
    intro ys r h1 h2
    cases ys with
    | nil => simp at h2
    | cons y ys =>
      cases r with
      | zero => simp
      | succ r =>
        simp only [List.zipWith_cons_cons, List.getD_cons_succ]
        exact ih ys r (by simpa using h1) (by simpa using h2)

theorem length_zipWith_add (xs ys : List ℝ) :
    (List.zipWith (fun x y => x + y) xs ys).length = min xs.length ys.length := by
  simp

theorem foldl_zipWith_length (n : Nat) : ∀ (cols : List (List ℝ)) (acc : List ℝ),
    acc.length = n → (∀ c ∈ cols, c.length = n) →
    (cols.foldl (fun a c => List.zipWith (fun x y => x + y) a c) acc).length = n := by
  intro cols
  induction cols with
  | nil => intro acc ha _; simpa using ha
  | cons c cs ih =>
    intro acc ha hc
    simp only [List.foldl_cons]
    exact ih _ (by simp [ha, hc c (by simp)]) (fun d hd => hc d (by simp [hd]))

theorem foldl_zipWith_getD (n r : Nat) (hr : r < n) : ∀ (cols : List (List ℝ)) (acc : List ℝ),
    acc.length = n → (∀ c ∈ cols, c.length = n) →
    (cols.foldl (fun a c => List.zipWith (fun x y => x + y) a c) acc).getD r 0
      = acc.getD r 0 + (cols.map (fun c => c.getD r 0)).sum := by
  intro cols
  induction cols with
  | nil => intro acc _ _; simp
  | cons c cs ih =>
    intro acc ha hc
    simp only [List.foldl_cons, List.map_cons, List.sum_cons]
    rw [ih _ (by simp [ha, hc c (by simp)]) (fun d hd => hc d (by simp [hd]))]
    rw [getD_zipWith_add acc c r (by omega) (by rw [hc c (by simp)]; omega)]
    ring

theorem getD_replicate_zero (n r : Nat) : (List.replicate n (0:ℝ)).getD r 0 = 0 := by
  induction n generalizing r with
  | zero => simp
  | succ n ih =>
    cases r with
    | zero => simp
    | succ r => simpa using ih r

theorem rowSum_length (n : Nat) (cols : List (List ℝ)) (h : ∀ c ∈ cols, c.length = n) :
    (rowSum n cols).length = n :=
  foldl_zipWith_length n cols _ (by simp) h

theorem rowSum_getD (n r : Nat) (hr : r < n) (cols : List (List ℝ))
    (h : ∀ c ∈ cols, c.length = n) :
    (rowSum n cols).getD r 0 = (cols.map (fun c => c.getD r 0)).sum := by
  unfold rowSum
  rw [foldl_zipWith_getD n r hr cols _ (by simp) h, getD_replicate_zero, zero_add]

/-- Claim C6: with a non-empty area list join_areas appends an
irradiation_sum column that is, row by row, the sum of all the per-area
irradiation columns of the result; with an empty area list the frame is
returned unchanged, so no irradiation_sum column is appended. -/
theorem c6_irradiation_sum (b : Frame) (areas : List Area) (hb : baseLen b) :
    (areas ≠ [] → ∃ s, lookupCol (join_areas b areas).cols ColName.irradiation_sum = some s ∧
      s.length = b.index.length ∧
      ∀ r, r < b.index.length → s.getD r 0 =
        ((List.range areas.length).map
          (fun i => (getCol (join_areas b areas) (ColName.irradiation i)).getD r 0)).sum) ∧
    (areas = [] → join_areas b areas = b) := by
  constructor
  · intro hne
    obtain ⟨a0, l0, rfl⟩ : ∃ a0 l0, areas = a0 :: l0 := by
      cases areas with
      | nil => exact absurd rfl hne
      | cons x xs => exact ⟨x, xs, rfl⟩
    rw [join_areas_cons]
    set F := joinLoop b 0 (a0 :: l0) with hF
    set S := rowSum F.index.length ((List.range (a0 :: l0).length).map
      (fun ii => getCol F (ColName.irradiation ii))) with hS
    have hFn : F.index.length = b.index.length := by rw [hF, joinLoop_index]
    have hgetF : ∀ i, i < (a0 :: l0).length →
        getCol F (ColName.irradiation i) = irrOf b ((a0 :: l0).getD i default) := by
      intro i hi
      have := joinLoop_lookup_irr (a0 :: l0) b 0 i (Nat.zero_le i) (by omega)
      simp only [Nat.sub_zero] at this
      simp [getCol, hF, this]
    have hclen : ∀ c ∈ (List.range (a0 :: l0).length).map
        (fun ii => getCol F (ColName.irradiation ii)), c.length = F.index.length := by
      intro c hcmem
      obtain ⟨ii, hii, rfl⟩ := List.mem_map.mp hcmem
      rw [hgetF ii (List.mem_range.mp hii), hFn]
      exact irrOf_length b _ hb
    refine ⟨S, ?_, ?_, ?_⟩
    · show lookupCol (setCol F.cols ColName.irradiation_sum S) ColName.irradiation_sum = some S
      rw [lookupCol_setCol]; simp
    · rw [hS, rowSum_length _ _ hclen, hFn]
    · intro r hrn
      rw [hS, rowSum_getD _ r (by omega) _ hclen, List.map_map]
      refine congrArg List.sum ?_
      apply List.map_congr_left
      intro ii hii
      have hlk : ∀ vl : List ℝ,
          lookupCol (setCol F.cols ColName.irradiation_sum vl) (ColName.irradiation ii)
            = lookupCol F.cols (ColName.irradiation ii) := by
        intro vl
        rw [lookupCol_setCol]; simp
      simp [Function.comp, getCol, Frame.set, hlk]
  · intro h; subst h; rfl

/-- Witness for C6 exercising both the non-empty and the empty area list
branches on concrete inputs. -/
theorem c6_witness :
    baseLen bDemo ∧
    (∃ s, lookupCol (join_areas bDemo [aDemo]).cols ColName.irradiation_sum = some s ∧
      s.length = bDemo.index.length ∧
      ∀ r, r < bDemo.index.length → s.getD r 0 =
        ((List.range ([aDemo] : List Area).length).map
          (fun i => (getCol (join_areas bDemo [aDemo]) (ColName.irradiation i)).getD r 0)).sum) ∧
    join_areas bDemo [] = bDemo :=
  ⟨by decide, (c6_irradiation_sum bDemo [aDemo] (by decide)).1 (by simp),
    (c6_irradiation_sum bDemo [] (by decide)).2 rfl⟩

theorem factorsOf_fillDefaults (f : Frame) (a : Area) :
    factorsOf f (fillDefaults a) = factorsOf f a := by
  simp [factorsOf, fillDefaults]

theorem irrOf_fillDefaults (f : Frame) (a : Area) :
    irrOf f (fillDefaults a) = irrOf f a := by
  unfold irrOf
  rw [factorsOf_fillDefaults]
  simp [fillDefaults]

theorem joinLoop_fillDefaults (l : List Area) : ∀ (f : Frame) (k : Nat),
    joinLoop f k (l.map fillDefaults) = joinLoop f k l := by
  induction l with
  | nil => intro f k; rfl
  | cons a rest ih =>
    intro f k
    simp only [List.map_cons]
    rw [joinLoop, joinLoop, factorsOf_fillDefaults, irrOf_fillDefaults, ih]

theorem zipWith_zero_getD (xs : List ℝ) : ∀ (ys : List (ℝ × ℝ)) (r : Nat),
    (List.zipWith (fun fct p => (0:ℝ) * (fct * p.1 + p.2)) xs ys).getD r 0 = 0 := by
  induction xs with
  | nil => intro ys r; simp
  | cons x xs ih =>
    intro ys r
    cases ys with
    | nil => simp
    | cons y ys =>
      cases r with
      | zero => simp
      | succ r => simpa using ih ys r

theorem irrOf_size_none (b : Frame) (a : Area) (h : a.size = none) (r : Nat) :
    (irrOf b a).getD r 0 = 0 := by
  rw [irrOf, h]
  simpa using zipWith_zero_getD (factorsOf b a)
    ((getCol b ColName.dni).zip (getCol b ColName.dhi)) r

/-- Claim C8: join_areas never fails on areas with absent fields; a
missing azimuth, elevation or size is read as 0, so the area list may be
replaced by its explicitly defaulted form without changing the output,
and an area whose size field is absent contributes an irradiation column
that is zero in every row. -/
theorem c8_missing_fields_default_to_zero (b : Frame) (areas : List Area) :
    join_areas b (areas.map fillDefaults) = join_areas b areas ∧
    ∀ i, i < areas.length → (areas.getD i default).size = none →
      ∀ r, (getCol (join_areas b areas) (ColName.irradiation i)).getD r 0 = 0 := by
  constructor
  · cases areas with
    | nil => rfl
    | cons a0 l0 =>
      simp only [List.map_cons]
      rw [join_areas_cons, join_areas_cons]
      rw [show (fillDefaults a0 :: l0.map fillDefaults) = (a0 :: l0).map fillDefaults from rfl]
      rw [joinLoop_fillDefaults, List.length_map]
  · intro i hi hnone r
    have hne : areas ≠ [] := by
      intro h; subst h; simp at hi
    obtain ⟨a0, l0, rfl⟩ : ∃ a0 l0, areas = a0 :: l0 := by
      cases areas with
      | nil => exact absurd rfl hne
      | cons x xs => exact ⟨x, xs, rfl⟩
    rw [join_areas_cons]
    have hlk : lookupCol ((joinLoop b 0 (a0 :: l0)).set ColName.irradiation_sum
        (rowSum (joinLoop b 0 (a0 :: l0)).index.length ((List.range (a0 :: l0).length).map
          (fun ii => getCol (joinLoop b 0 (a0 :: l0)) (ColName.irradiation ii))))).cols
        (ColName.irradiation i)
        = lookupCol (joinLoop b 0 (a0 :: l0)).cols (ColName.irradiation i) := by
      show lookupCol (setCol _ ColName.irradiation_sum _) _ = _
      rw [lookupCol_setCol]; simp
    have hval := joinLoop_lookup_irr (a0 :: l0) b 0 i (Nat.zero_le i) (by omega)
    simp only [Nat.sub_zero] at hval
    rw [getCol, hlk, hval]
    simpa using irrOf_size_none b _ hnone r

/-- Witness for C8 at a concrete base frame and a concrete area list with
all fields absent. -/
theorem c8_witness :
    join_areas bDemo ([aDemo].map fillDefaults) = join_areas bDemo [aDemo] ∧
    (0 < ([aDemo] : List Area).length ∧ (([aDemo] : List Area).getD 0 default).size = none ∧
      (getCol (join_areas bDemo [aDemo]) (ColName.irradiation 0)).getD 0 0 = 0) :=
  ⟨(c8_missing_fields_default_to_zero bDemo [aDemo]).1,
    by decide, rfl,
    (c8_missing_fields_default_to_zero bDemo [aDemo]).2 0 (by decide) rfl 0⟩

/-- Claim C9: irradiation_factor is the clamped dot product
max(dot(sun, surface), 0); on unit vectors it lies in the interval from 0
to 1, it is 1 on a pair of equal unit vectors and 0 on a unit vector
paired with its negation. -/
theorem c9_irradiation_factor_clamped (v w : Vec3) (hv : unitVec v) (hw : unitVec w) :
    irradiation_factor v w = max (dot3 v w) 0 ∧
    0 ≤ irradiation_factor v w ∧ irradiation_factor v w ≤ 1 ∧
    irradiation_factor v v = 1 ∧ irradiation_factor v (neg3 v) = 0 := by
  unfold unitVec at hv hw
  refine ⟨rfl, le_max_right _ _, ?_, ?_, ?_⟩
  · apply max_le _ (by norm_num)
    unfold dot3
    nlinarith [sq_nonneg (v.1 - w.1), sq_nonneg (v.2.1 - w.2.1), sq_nonneg (v.2.2 - w.2.2)]
  · have h1 : dot3 v v = 1 := hv
    rw [irradiation_factor, h1]
    norm_num
  · have h1 : dot3 v (neg3 v) = -1 := by
      simp only [dot3, neg3, mul_neg]
      linarith
    rw [irradiation_factor, h1]
    norm_num

/-- Witness for C9 at a concrete unit vector. -/
theorem c9_witness :
    unitVec vDemo ∧
    (irradiation_factor vDemo vDemo = max (dot3 vDemo vDemo) 0 ∧
      0 ≤ irradiation_factor vDemo vDemo ∧ irradiation_factor vDemo vDemo ≤ 1 ∧
      irradiation_factor vDemo vDemo = 1 ∧ irradiation_factor vDemo (neg3 vDemo) = 0) := by
  have h : unitVec vDemo := by norm_num [unitVec, vDemo]
  exact ⟨h, c9_irradiation_factor_clamped vDemo vDemo h h⟩

/-- Claim C7: with fewer than 2 timestamps the dx computation of
integrate_joined_data fails (IndexError on an empty index, failed
Timedelta assertion on a single timestamp) and no result is returned;
with at least 2 timestamps the dx computation and its type assertion
succeed and the integrator returns a result. -/
theorem c7_integrate_asserts_on_short_index (numAreas : Nat) (f : Frame) :
    (f.index.length < 2 → ∃ e, integrate_joined_data numAreas f = Except.error e) ∧
    (2 ≤ f.index.length → (∃ d, computeDx f.index = Except.ok d) ∧
      ∃ out, integrate_joined_data numAreas f = Except.ok out) := by
  rcases hidx : f.index with _ | ⟨t0, rest0⟩
  · constructor
    · intro _
      refine ⟨"IndexError: index -1 is out of bounds", ?_⟩
      simp only [integrate_joined_data, hidx, computeDx]
    · intro h2
      simp only [List.length_nil] at h2
      omega
  · rcases rest0 with _ | ⟨t1, rest⟩
    · constructor
      · intro _
        refine ⟨"AssertionError: dx is NaT, not a Timedelta", ?_⟩
        simp only [integrate_joined_data, hidx, computeDx]
      · intro h2
        simp only [List.length_cons, List.length_nil] at h2
        omega
    · constructor
      · intro h
        simp only [List.length_cons] at h
        omega
      · intro _
        refine ⟨⟨(t1 - t0) % 86400, rfl⟩, ?_⟩
        unfold integrate_joined_data
        rw [hidx]
        exact ⟨_, rfl⟩

/-- Witness for C7 exercising both the short-index and the valid-index
branches on concrete frames. -/
theorem c7_witness :
    (f1Demo.index.length < 2 ∧ ∃ e, integrate_joined_data 0 f1Demo = Except.error e) ∧
    (2 ≤ f2Demo.index.length ∧ (∃ d, computeDx f2Demo.index = Except.ok d) ∧
      ∃ out, integrate_joined_data 0 f2Demo = Except.ok out) :=
  ⟨⟨by decide, (c7_integrate_asserts_on_short_index 0 f1Demo).1 (by decide)⟩,
    ⟨by decide, (c7_integrate_asserts_on_short_index 0 f2Demo).2 (by decide)⟩⟩

/-- Claim C1 (code bug): get_solar_vector invokes the provider as
get_solarposition(t, long, lat), passing the longitude in the latitude
slot, unlike calculate_data which passes (times, latitude, longitude).
At longitude 0 and latitude 90, with a provider whose reported elevation
equals its latitude argument, the code produces the direction vector for
elevation 0 instead of the contract-conforming vector for elevation 90. -/
theorem c1_get_solar_vector_swaps_lat_lon :
    get_solar_vector PdemoSwap 0 0 90 ≠
      direction_vec (PdemoSwap.get_solarposition 0 90 0).apparent_elevation
        (PdemoSwap.get_solarposition 0 90 0).azimuth := by
  intro h
  have h3 := congrArg (fun v : Vec3 => v.2.2) h
  simp only [get_solar_vector, direction_vec, PdemoSwap] at h3
  rw [zero_mul, Real.sin_zero] at h3
  have h90 : (90:ℝ) * (Real.pi / 180) = Real.pi / 2 := by ring
  rw [h90, Real.sin_pi_div_two] at h3
  norm_num at h3

/-- Counterexample to C5: two invocations of calculate_data with the
identical argument tuple (min_date, max_date, freq, latitude, longitude,
tz, pressure) but different ambient module-level altitude return different
frames, because the body reads the global altitude in its ineichen call. -/
theorem c5_counterexample_ambient_altitude :
    calculate_data PdemoAlt 0 0 0 1 0 0 0 0 ≠ calculate_data PdemoAlt 1 0 0 1 0 0 0 0 := by
  intro h
  have h2 := congrArg (fun fr => getCol fr ColName.ghi) h
  simp only [calculate_data, PdemoAlt, getCol, lookupCol] at h2
  norm_num at h2

/-- Claim C5 (amended): the output of calculate_data is a function of the
argument tuple together with the ambient module-level altitude.  In the
app the pressure argument is always alt2pres(altitude), and alt2pres is
injective, so two invocations with identical argument tuples necessarily
agree on the ambient altitude as well and return equal frames. -/
theorem c5_amended_calculate_data_deterministic (P : Provider) (alt1 alt2 : ℝ)
    (min_date max_date freq : Nat) (lat lon : ℝ) (tz : Nat)
    (hinj : Function.Injective P.alt2pres)
    (hpres : P.alt2pres alt1 = P.alt2pres alt2) :
    calculate_data P alt1 min_date max_date freq lat lon tz (P.alt2pres alt1)
      = calculate_data P alt2 min_date max_date freq lat lon tz (P.alt2pres alt2) := by
  have h := hinj hpres
  rw [h]

/-- Witness for the amended C5 at a concrete provider and arguments. -/
theorem c5_witness :
    Function.Injective PdemoAlt.alt2pres ∧
    PdemoAlt.alt2pres 0 = PdemoAlt.alt2pres 0 ∧
    calculate_data PdemoAlt 0 0 0 1 0 0 0 (PdemoAlt.alt2pres 0)
      = calculate_data PdemoAlt 0 0 0 1 0 0 0 (PdemoAlt.alt2pres 0) :=
  ⟨by intro a b hx; exact hx, rfl,
    c5_amended_calculate_data_deterministic PdemoAlt 0 0 0 0 1 0 0 0
      (by intro a b hx; exact hx) rfl⟩

theorem headD_mem {α : Type} (l : List α) (d : α) (h : l ≠ []) : l.headD d ∈ l := by
  cases l with
  | nil => exact absurd rfl h
  | cons a rest => simp

theorem dayRuns_singleton {α : Type} (key : α → Nat) (a : α) :
    dayRuns key [a] = [[a]] := by
  simp [dayRuns]

theorem dayRuns_cons_of_shape {α : Type} (key : α → Nat) (a b : α) (l g : List α)
    (gs : List (List α)) (h : dayRuns key l = (b :: g) :: gs) :
    dayRuns key (a :: l) = if key a = key b then (a :: b :: g) :: gs
      else [a] :: (b :: g) :: gs := by
  simp only [dayRuns, h]

theorem dayRuns_shape {α : Type} (key : α → Nat) (a : α) (l : List α) :
    ∃ g gs, dayRuns key (a :: l) = (a :: g) :: gs := by
  rcases hr : dayRuns key l with _ | ⟨g0, gs0⟩
  · exact ⟨[], [], by simp only [dayRuns, hr]⟩
  · rcases g0 with _ | ⟨b, g⟩
    · exact ⟨[], gs0, by simp only [dayRuns, hr]⟩
    · by_cases hk : key a = key b
      · exact ⟨b :: g, gs0, by rw [dayRuns_cons_of_shape key a b l g gs0 hr]; simp [hk]⟩
      · exact ⟨[], (b :: g) :: gs0,
          by rw [dayRuns_cons_of_shape key a b l g gs0 hr]; simp [hk]⟩

theorem dayRuns_const {α : Type} (key : α → Nat) (d : Nat) :
    ∀ l : List α, l ≠ [] → (∀ x ∈ l, key x = d) → dayRuns key l = [l] := by
  intro l
  induction l with
  | nil => intro h _; exact absurd rfl h
  | cons a rest ih =>
    intro _ hall
    cases rest with
    | nil => exact dayRuns_singleton key a
    | cons b rest2 =>
      have hr := ih (by simp) (fun x hx => hall x (List.mem_cons_of_mem a hx))
      rw [dayRuns_cons_of_shape key a b (b :: rest2) rest2 [] hr]
      have hk : key a = key b := by rw [hall a (by simp), hall b (by simp)]
      rw [if_pos hk]

theorem dayRuns_append {α : Type} (key : α → Nat) (d : Nat) :
    ∀ (xs : List α), xs ≠ [] → (∀ x ∈ xs, key x = d) →
    ∀ (y : α) (ys : List α), key y ≠ d →
    dayRuns key (xs ++ y :: ys) = xs :: dayRuns key (y :: ys) := by
  intro xs
  induction xs with
  | nil => intro h; exact absurd rfl h
  | cons a rest ih =>
    intro _ hall y ys hy
    obtain ⟨g, gs, hg⟩ := dayRuns_shape key y ys
    cases rest with
    | nil =>
      rw [List.singleton_append]
      rw [dayRuns_cons_of_shape key a y (y :: ys) g gs hg]
      have hne : key a ≠ key y := by
        rw [hall a (by simp)]
        exact fun hh => hy hh.symm
      rw [if_neg hne, hg]
    | cons b rest2 =>
      have hr := ih (by simp) (fun x hx => hall x (List.mem_cons_of_mem a hx)) y ys hy
      rw [List.cons_append]
      rw [dayRuns_cons_of_shape key a b ((b :: rest2) ++ y :: ys) rest2
        (dayRuns key (y :: ys)) hr]
      have hk : key a = key b := by rw [hall a (by simp), hall b (by simp)]
      rw [if_pos hk]

theorem dayRuns_eq_dedup_filter {α : Type} (key : α → Nat) :
    ∀ l : List α, l.Pairwise (fun x y => key x ≤ key y) →
    dayRuns key l = ((l.map key).dedup).map (fun d => l.filter (fun x => key x == d)) := by
  intro l
  induction l with
  | nil => intro _; rfl
  | cons a rest ih =>
    intro hp
    rw [List.pairwise_cons] at hp
    obtain ⟨ha, hrest⟩ := hp
    cases rest with
    | nil =>
      rw [dayRuns_singleton]
      have h1 : (List.map key [a]).dedup = [key a] := by
        simp [List.dedup_cons_of_not_mem]
      rw [h1]
      simp
    | cons b rest2 =>
      have hih := ih hrest
      obtain ⟨g, gs, hg⟩ := dayRuns_shape key b rest2
      rcases hds : ((b :: rest2).map key).dedup with _ | ⟨d0, ds⟩
      · rw [List.dedup_eq_nil] at hds
        simp at hds
      · have hmain : (b :: g) :: gs
            = (d0 :: ds).map (fun d => (b :: rest2).filter (fun x => key x == d)) := by
          rw [← hds, ← hih, hg]
        simp only [List.map_cons] at hmain
        injection hmain with hhead htail
        have hd0 : key b = d0 := by
          have hbmem : b ∈ (b :: rest2).filter (fun x => key x == d0) := by
            rw [← hhead]; simp
          have hb2 := List.mem_filter.mp hbmem
          simpa using hb2.2
        have hnodup : (d0 :: ds).Nodup := by
          rw [← hds]; exact List.nodup_dedup _
        have hd0ds : d0 ∉ ds := (List.nodup_cons.mp hnodup).1
        by_cases hk : key a = key b
        · have hmem : key a ∈ (b :: rest2).map key :=
            List.mem_map.mpr ⟨b, by simp, hk.symm⟩
          have hded : ((a :: b :: rest2).map key).dedup
              = ((b :: rest2).map key).dedup := by
            simp only [List.map_cons]
            exact List.dedup_cons_of_mem (by simpa using hmem)
          rw [dayRuns_cons_of_shape key a b (b :: rest2) g gs hg, if_pos hk, hded, hds]
          simp only [List.map_cons]
          congr 1
          · rw [List.filter_cons]
            have hbeq : (key a == d0) = true := by
              rw [hk, hd0]; simp
            simp only [hbeq, if_true]
            rw [← hhead]
          · rw [htail]
            apply List.map_congr_left
            intro d hd
            rw [List.filter_cons]
            have hane : (key a == d) = false := by
              have hdne : d0 ≠ d := fun hh => hd0ds (hh ▸ hd)
              rw [hk, hd0]
              simpa using hdne
            simp [hane, List.filter_cons]
        · have hnotmem : key a ∉ (b :: rest2).map key := by
            intro hmem
            obtain ⟨x, hx, hkey⟩ := List.mem_map.mp hmem
            rcases List.mem_cons.mp hx with rfl | hx2
            · exact hk hkey.symm
            · have h1 : key a ≤ key b := ha b (by simp)
              have h2 : key b ≤ key x := (List.pairwise_cons.mp hrest).1 x hx2
              exact hk (Nat.le_antisymm h1 (hkey ▸ h2))
          have hded : ((a :: b :: rest2).map key).dedup
              = key a :: ((b :: rest2).map key).dedup := by
            simp only [List.map_cons]
            exact List.dedup_cons_of_not_mem (by simpa using hnotmem)
          rw [dayRuns_cons_of_shape key a b (b :: rest2) g gs hg, if_neg hk, hded, hds]
          simp only [List.map_cons]
          congr 1
          · rw [List.filter_cons]
            have hbeq : (key a == key a) = true := by simp
            simp only [hbeq, if_true]
            have hnil : (b :: rest2).filter (fun x => key x == key a) = [] := by
              rw [List.filter_eq_nil_iff]
              intro x hx
              simp only [beq_iff_eq]
              exact fun hkx => hnotmem (List.mem_map.mpr ⟨x, hx, hkx⟩)
            rw [hnil]
          congr 1
          · rw [List.filter_cons]
            have hane : (key a == d0) = false := by
              have h1 : key a ≠ d0 := fun hh => hk (by rw [hh, hd0])
              simpa using h1
            simp only [hane, Bool.false_eq_true, if_false]
            exact hhead
          · rw [htail]
            apply List.map_congr_left
            intro d hd
            rw [List.filter_cons]
            have hane : (key a == d) = false := by
              have hdm : d ∈ (b :: rest2).map key := by
                have hdd : d ∈ ((b :: rest2).map key).dedup := by
                  rw [hds]; exact List.mem_cons_of_mem d0 hd
                exact List.mem_dedup.mp hdd
              have h1 : key a ≠ d := fun hh => hnotmem (hh ▸ hdm)
              simpa using h1
            simp [hane, List.filter_cons]

theorem lookupCol_map_val (F : List ℝ → List ℝ) :
    ∀ (cols : List (ColName × List ℝ)) (n : ColName),
    lookupCol (cols.map (fun nc => (nc.1, F nc.2))) n = (lookupCol cols n).map F := by
  intro cols
  induction cols with
  | nil => intro n; rfl
  | cons p rest ih =>
    intro n
    obtain ⟨m, v⟩ := p
    by_cases h : m = n <;> simp [lookupCol, h, ih]

theorem lookupCol_integrated_map (V : Nat → List ℝ) :
    ∀ (js : List Nat) (i : Nat), i ∈ js →
    lookupCol (js.map (fun j => (ColName.integrated j, V j))) (ColName.integrated i)
      = some (V i) := by
  intro js
  induction js with
  | nil => intro i hi; simp at hi
  | cons j js ih =>
    intro i hi
    by_cases h : j = i
    · subst h; simp [lookupCol]
    · have hmem : i ∈ js := by
        rcases List.mem_cons.mp hi with h2 | h2
        · exact absurd h2.symm h
        · exact h2
      simp only [List.map_cons, lookupCol]
      rw [if_neg (by simp [h]), ih i hmem]

theorem dayRuns_labels (index : List Nat) (hsort : index.Pairwise (fun a b => a ≤ b)) :
    (dayRuns dayOf index).map (fun g => dayOf (g.headD 0)) = daysOf index := by
  have hsd : index.Pairwise (fun a b => dayOf a ≤ dayOf b) :=
    hsort.imp (fun h => Nat.div_le_div_right h)
  rw [dayRuns_eq_dedup_filter dayOf index hsd, List.map_map]
  unfold daysOf
  conv_rhs => rw [← List.map_id ((index.map dayOf).dedup)]
  apply List.map_congr_left
  intro d hd
  simp only [Function.comp, id]
  have hdm : d ∈ index.map dayOf := List.mem_dedup.mp hd
  obtain ⟨t, ht, hdt⟩ := List.mem_map.mp hdm
  have hne : index.filter (fun x => dayOf x == d) ≠ [] := by
    intro hnil
    rw [List.filter_eq_nil_iff] at hnil
    exact hnil t ht (by simp [hdt])
  have hmem := headD_mem _ 0 hne
  have hmf := List.mem_filter.mp hmem
  simpa using hmf.2

theorem integrate_joined_data_ok (numAreas : Nat) (f : Frame) (d : Nat)
    (hdx : computeDx f.index = Except.ok d) :
    integrate_joined_data numAreas f =
      (let intCols := (List.range numAreas).map (fun i =>
        (ColName.integrated i,
          (dayRuns (fun p => dayOf p.1) (f.index.zip (getCol f (ColName.irradiation i)))).map
            (fun g => trapezoid (d : ℝ) (g.map Prod.snd))));
      let pdf : Frame :=
        if numAreas = 0 then ⟨[], []⟩
        else ⟨(dayRuns dayOf f.index).map (fun g => dayOf (g.headD 0)), intCols⟩;
      let pdf2 : Frame :=
        if 1 < numAreas then
          pdf.set ColName.integrated_sum (rowSum pdf.index.length (intCols.map Prod.snd))
        else pdf;
      Except.ok ⟨pdf2.index.dropLast,
        pdf2.cols.map (fun nc => (nc.1, nc.2.dropLast.map (fun x => x / 3600000)))⟩) := by
  unfold integrate_joined_data
  rw [hdx]

theorem intCol_value (f : Frame) (d i : Nat)
    (hsort : f.index.Pairwise (fun a b => a ≤ b))
    (hleni : (getCol f (ColName.irradiation i)).length = f.index.length) :
    (dayRuns (fun p => dayOf p.1) (f.index.zip (getCol f (ColName.irradiation i)))).map
      (fun g => trapezoid (d : ℝ) (g.map Prod.snd))
    = (daysOf f.index).map
        (fun dd => trapezoid (d : ℝ) (bucketOf f (ColName.irradiation i) dd)) := by
  have hfst : (f.index.zip (getCol f (ColName.irradiation i))).map Prod.fst = f.index :=
    List.map_fst_zip _ _ (by rw [hleni])
  have hpair : (f.index.zip (getCol f (ColName.irradiation i))).Pairwise
      (fun p q => dayOf p.1 ≤ dayOf q.1) := by
    have h1 : ((f.index.zip (getCol f (ColName.irradiation i))).map Prod.fst).Pairwise
        (fun a b => a ≤ b) := by rw [hfst]; exact hsort
    have h2 := List.pairwise_map.mp h1
    exact h2.imp (fun h => Nat.div_le_div_right h)
  rw [dayRuns_eq_dedup_filter _ _ hpair, List.map_map]
  have hkey : (f.index.zip (getCol f (ColName.irradiation i))).map (fun p => dayOf p.1)
      = f.index.map dayOf := by
    conv_rhs => rw [← hfst, List.map_map]
    rfl
  rw [hkey]
  apply List.map_congr_left
  intro dd hdd
  simp only [Function.comp]
  rfl

theorem integrate_ok (numAreas : Nat) (f : Frame) (d : Nat)
    (hA : 1 ≤ numAreas)
    (hsort : f.index.Pairwise (fun a b => a ≤ b))
    (hdx : computeDx f.index = Except.ok d)
    (hlen : ∀ i, i < numAreas → (getCol f (ColName.irradiation i)).length = f.index.length) :
    ∃ out, integrate_joined_data numAreas f = Except.ok out ∧
      out.index = (daysOf f.index).dropLast ∧
      out.index.length + 1 = (daysOf f.index).length ∧
      ∀ i, i < numAreas → lookupCol out.cols (ColName.integrated i) =
        some (((daysOf f.index).map (fun dd =>
          trapezoid (d : ℝ) (bucketOf f (ColName.irradiation i) dd) / 3600000)).dropLast) := by
  have hA0 : ¬ (numAreas = 0) := by omega
  obtain ⟨t0, t1, restIdx, hidx⟩ : ∃ a b r, f.index = a :: b :: r := by
    rcases hi : f.index with _ | ⟨u0, _ | ⟨u1, r⟩⟩
    · rw [hi] at hdx; exact absurd hdx (by simp [computeDx])
    · rw [hi] at hdx; exact absurd hdx (by simp [computeDx])
    · exact ⟨u0, u1, r, rfl⟩
  have hdays : daysOf f.index ≠ [] := by
    rw [hidx]
    simp [daysOf, List.dedup_eq_nil]
  have hdayslen : 1 ≤ (daysOf f.index).length := List.length_pos.mpr hdays
  have hlabels : (dayRuns dayOf f.index).map (fun g => dayOf (g.headD 0)) = daysOf f.index :=
    dayRuns_labels f.index hsort
  have hEq := integrate_joined_data_ok numAreas f d hdx
  simp only [if_neg hA0] at hEq
  by_cases h2 : 1 < numAreas
  · simp only [if_pos h2, Frame.set] at hEq
    rw [hlabels] at hEq
    refine ⟨_, hEq, rfl, ?_, ?_⟩
    · simp only [List.length_dropLast]
      omega
    · intro i hi
      dsimp only
      rw [lookupCol_map_val (fun v => List.map (fun x => x / 3600000) v.dropLast), lookupCol_setCol]
      rw [if_neg (by simp)]
      rw [lookupCol_integrated_map _ _ i (List.mem_range.mpr hi)]
      rw [intCol_value f d i hsort (hlen i hi)]
      simp only [Option.map_some']
      rw [List.map_dropLast, List.map_map]
      rfl
  · simp only [if_neg h2] at hEq
    rw [hlabels] at hEq
    refine ⟨_, hEq, rfl, ?_, ?_⟩
    · simp only [List.length_dropLast]
      omega
    · intro i hi
      dsimp only
      rw [lookupCol_map_val (fun v => List.map (fun x => x / 3600000) v.dropLast)]
      rw [lookupCol_integrated_map _ _ i (List.mem_range.mpr hi)]
      rw [intCol_value f d i hsort (hlen i hi)]
      simp only [Option.map_some']
      rw [List.map_dropLast, List.map_map]
      rfl

/-- Claim C3 (amended): on a joined series with at least 2 timestamps, a
sorted index whose first gap is below one day, and at least one area,
integrate_joined_data groups the rows into calendar-day buckets,
integrates each area irradiation column over each bucket by the
trapezoidal rule with uniform step dx = the duration in seconds between
the first two index entries, divides by 3600000, and drops exactly one
trailing day-bucket row.  With zero areas the result is instead an empty
frame with no rows. -/
theorem c3_amended_integrate_buckets (numAreas : Nat) (f : Frame)
    (hA : 1 ≤ numAreas)
    (h2 : 2 ≤ f.index.length)
    (hsort : f.index.Pairwise (fun a b => a ≤ b))
    (hgap : f.index.getD 1 0 - f.index.getD 0 0 < 86400)
    (hlen : ∀ i, i < numAreas → (getCol f (ColName.irradiation i)).length = f.index.length) :
    ∃ out, integrate_joined_data numAreas f = Except.ok out ∧
      out.index = (daysOf f.index).dropLast ∧
      out.index.length + 1 = (daysOf f.index).length ∧
      ∀ i, i < numAreas → lookupCol out.cols (ColName.integrated i) =
        some (((daysOf f.index).map (fun dd =>
          trapezoid ((f.index.getD 1 0 - f.index.getD 0 0 : Nat) : ℝ)
            (bucketOf f (ColName.irradiation i) dd) / 3600000)).dropLast) := by
  have hdx : computeDx f.index = Except.ok (f.index.getD 1 0 - f.index.getD 0 0) := by
    rcases hi : f.index with _ | ⟨t0, _ | ⟨t1, r⟩⟩
    · rw [hi] at h2; simp at h2
    · rw [hi] at h2; simp at h2
    · rw [hi] at hgap
      simp only [List.getD_cons_succ, List.getD_cons_zero] at hgap ⊢
      show Except.ok ((t1 - t0) % 86400) = _
      rw [Nat.mod_eq_of_lt hgap]
  exact integrate_ok numAreas f _ hA hsort hdx hlen

/-- Counterexample to C3 as stated: on a joined series with 2 timestamps
spanning 2 day buckets but zero areas, the integrator returns a frame with
no rows at all, not the single row that dropping exactly one trailing
day-bucket row would leave. -/
theorem c3_counterexample_zero_areas :
    (daysOf c3cFrame.index).length = 2 ∧
    (integrate_joined_data 0 c3cFrame).map (fun g => g.index.length) = Except.ok 0 ∧
    (0 : Nat) ≠ (daysOf c3cFrame.index).length - 1 := by
  exact ⟨by decide, rfl, by decide⟩

/-- Witness for the amended C3 at a concrete joined frame. -/
theorem c3_witness :
    ((1:Nat) ≤ 1 ∧ 2 ≤ c3wFrame.index.length ∧
      c3wFrame.index.Pairwise (fun a b => a ≤ b) ∧
      c3wFrame.index.getD 1 0 - c3wFrame.index.getD 0 0 < 86400 ∧
      (∀ i, i < 1 → (getCol c3wFrame (ColName.irradiation i)).length
        = c3wFrame.index.length)) ∧
    (∃ out, integrate_joined_data 1 c3wFrame = Except.ok out ∧
      out.index = (daysOf c3wFrame.index).dropLast ∧
      out.index.length + 1 = (daysOf c3wFrame.index).length ∧
      ∀ i, i < 1 → lookupCol out.cols (ColName.integrated i) =
        some (((daysOf c3wFrame.index).map (fun dd =>
          trapezoid ((c3wFrame.index.getD 1 0 - c3wFrame.index.getD 0 0 : Nat) : ℝ)
            (bucketOf c3wFrame (ColName.irradiation i) dd) / 3600000)).dropLast)) :=
  ⟨⟨le_refl 1, by decide, by decide, by decide, by decide⟩,
    c3_amended_integrate_buckets 1 c3wFrame (le_refl 1) (by decide) (by decide)
      (by decide) (by decide)⟩

theorem dayRuns_triple {α : Type} (key : α → Nat) (d1 d2 d3 : Nat)
    (A B C : List α) (hA : A ≠ []) (hB : B ≠ []) (hC : C ≠ [])
    (hAk : ∀ x ∈ A, key x = d1) (hBk : ∀ x ∈ B, key x = d2)
    (hCk : ∀ x ∈ C, key x = d3) (h12 : d2 ≠ d1) (h23 : d3 ≠ d2) :
    dayRuns key (A ++ B ++ C) = [A, B, C] := by
  obtain ⟨cb, cbs, hCb⟩ := List.exists_cons_of_ne_nil hC
  obtain ⟨bb, bbs, hBb⟩ := List.exists_cons_of_ne_nil hB
  have hkcb : key cb = d3 := hCk cb (by rw [hCb]; simp)
  have hkbb : key bb = d2 := hBk bb (by rw [hBb]; simp)
  have hBC : dayRuns key (B ++ C) = B :: dayRuns key C := by
    rw [hCb]
    refine dayRuns_append key d2 B hB hBk cb cbs ?_
    rw [hkcb]; exact h23
  have hCr : dayRuns key C = [C] := dayRuns_const key d3 C hC hCk
  have hABC : dayRuns key (A ++ (B ++ C)) = A :: dayRuns key (B ++ C) := by
    have hsplit : B ++ C = bb :: (bbs ++ C) := by rw [hBb, List.cons_append]
    rw [hsplit]
    refine dayRuns_append key d1 A hA hAk bb (bbs ++ C) ?_
    rw [hkbb]; exact h12
  rw [List.append_assoc, hABC, hBC, hCr]

/-- Counterexample to C2 as stated: over a TimeWindow of exactly 2 full
calendar days at 1-hour frequency (49 samples), the integrator returns 2
day-rows, not exactly 1. -/
theorem c2_counterexample_two_day_rows :
    (integrate_joined_data 1 c2cFrame).map (fun g => g.index.length) = Except.ok 2 ∧
    (2 : Nat) ≠ 1 := by
  exact ⟨rfl, by decide⟩

/-- Claim C2 (amended): over a TimeWindow of exactly 2 full calendar days
at 1-hour frequency (49 samples starting at a midnight), the integrator
returns exactly 2 day-rows, not 1: the samples group into calendar-day
buckets of 24, 24 and 1 samples, the trailing 1-sample midnight bucket is
dropped, and each remaining row holds the trapezoidal integral of that
day's 24 hourly samples with step 3600 seconds, divided by 3600000. -/
theorem c2_amended_two_day_rows (D : Nat) (f : Frame) (c : List ℝ)
    (hidx : f.index = (List.range 49).map (fun k => D * 86400 + k * 3600))
    (hc : getCol f (ColName.irradiation 0) = c)
    (hclen : c.length = 49) :
    integrate_joined_data 1 f = Except.ok
      ⟨[D, D + 1],
        [(ColName.integrated 0,
          [trapezoid 3600 (c.take 24) / 3600000,
           trapezoid 3600 ((c.drop 24).take 24) / 3600000])]⟩ := by
  have h49 : List.range 49
      = (List.range 24 ++ (List.range 24).map (fun k => 24 + k)) ++ [48] := by decide
  have hsplitIdx : f.index
      = ((List.range 24).map (fun k => D * 86400 + k * 3600)
          ++ (List.range 24).map (fun k => D * 86400 + (24 + k) * 3600))
          ++ [D * 86400 + 48 * 3600] := by
    rw [hidx, h49, List.map_append, List.map_append, List.map_map]
    rfl
  have hdx : computeDx f.index = Except.ok 3600 := by
    have h2 : List.range 49 = 0 :: 1 :: List.range' 2 47 := by decide
    rw [hidx, h2]
    show Except.ok (((D * 86400 + 1 * 3600) - (D * 86400 + 0 * 3600)) % 86400)
      = Except.ok 3600
    congr 1
    omega
  have hmemA : ∀ t ∈ (List.range 24).map (fun k => D * 86400 + k * 3600),
      dayOf t = D := by
    intro t ht
    obtain ⟨k, hk, rfl⟩ := List.mem_map.mp ht
    have hk24 := List.mem_range.mp hk
    unfold dayOf
    omega
  have hmemB : ∀ t ∈ (List.range 24).map (fun k => D * 86400 + (24 + k) * 3600),
      dayOf t = D + 1 := by
    intro t ht
    obtain ⟨k, hk, rfl⟩ := List.mem_map.mp ht
    have hk24 := List.mem_range.mp hk
    unfold dayOf
    omega
  have hmemC : dayOf (D * 86400 + 48 * 3600) = D + 2 := by
    unfold dayOf
    omega
  have hlenA : ((List.range 24).map (fun k => D * 86400 + k * 3600)).length = 24 := by
    simp
  have hlenB : ((List.range 24).map (fun k => D * 86400 + (24 + k) * 3600)).length = 24 := by
    simp
  have hlenTA : (c.take 24).length = 24 := by
    rw [List.length_take, hclen]
    decide
  have hlenTB : ((c.drop 24).take 24).length = 24 := by
    rw [List.length_take, List.length_drop, hclen]
    decide
  have hlenC : (c.drop 48).length = 1 := by
    rw [List.length_drop, hclen]
  obtain ⟨clast, hclast⟩ := List.length_eq_one.mp hlenC
  have hcsplit : c = (c.take 24 ++ (c.drop 24).take 24) ++ c.drop 48 := by
    rw [List.append_assoc]
    conv_lhs => rw [← List.take_append_drop 24 c]
    congr 1
    conv_lhs => rw [← List.take_append_drop 24 (c.drop 24)]
    congr 1
    rw [List.drop_drop]
  have hzip : f.index.zip c
      = (((List.range 24).map (fun k => D * 86400 + k * 3600)).zip (c.take 24)
          ++ ((List.range 24).map (fun k => D * 86400 + (24 + k) * 3600)).zip
            ((c.drop 24).take 24))
          ++ ([D * 86400 + 48 * 3600]).zip (c.drop 48) := by
    rw [hsplitIdx]
    conv_lhs => rw [hcsplit]
    rw [List.zip_append (by rw [List.length_append, List.length_append, hlenA, hlenB,
      hlenTA, hlenTB])]
    rw [List.zip_append (by rw [hlenA, hlenTA])]
  have hgetA : ∀ p ∈ ((List.range 24).map (fun k => D * 86400 + k * 3600)).zip (c.take 24),
      dayOf p.1 = D := by
    intro p hp
    obtain ⟨a, b⟩ := p
    exact hmemA a (List.of_mem_zip hp).1
  have hgetB : ∀ p ∈ ((List.range 24).map
      (fun k => D * 86400 + (24 + k) * 3600)).zip ((c.drop 24).take 24),
      dayOf p.1 = D + 1 := by
    intro p hp
    obtain ⟨a, b⟩ := p
    exact hmemB a (List.of_mem_zip hp).1
  have hzipC : ([D * 86400 + 48 * 3600]).zip (c.drop 48)
      = [(D * 86400 + 48 * 3600, clast)] := by
    rw [hclast]
    rfl
  have hneA : (((List.range 24).map (fun k => D * 86400 + k * 3600)).zip (c.take 24)) ≠ [] := by
    intro hn
    have hl := congrArg List.length hn
    rw [List.length_zip, hlenA, hlenTA] at hl
    simp at hl
  have hneB : (((List.range 24).map (fun k => D * 86400 + (24 + k) * 3600)).zip
      ((c.drop 24).take 24)) ≠ [] := by
    intro hn
    have hl := congrArg List.length hn
    rw [List.length_zip, hlenB, hlenTB] at hl
    simp at hl
  have hruns : dayRuns (fun p => dayOf p.1) (f.index.zip c)
      = [((List.range 24).map (fun k => D * 86400 + k * 3600)).zip (c.take 24),
         ((List.range 24).map (fun k => D * 86400 + (24 + k) * 3600)).zip
           ((c.drop 24).take 24),
         ([D * 86400 + 48 * 3600]).zip (c.drop 48)] := by
    rw [hzip]
    refine dayRuns_triple (fun p => dayOf p.1) D (D + 1) (D + 2) _ _ _ hneA hneB
      ?hCne hgetA hgetB ?hCkey (by omega) (by omega)
    case hCne => rw [hzipC]; simp
    case hCkey =>
      intro p hp
      rw [hzipC] at hp
      rcases List.mem_cons.mp hp with rfl | hp2
      · exact hmemC
      · simp at hp2
  have hrunsIdx : dayRuns dayOf f.index
      = [(List.range 24).map (fun k => D * 86400 + k * 3600),
         (List.range 24).map (fun k => D * 86400 + (24 + k) * 3600),
         [D * 86400 + 48 * 3600]] := by
    rw [hsplitIdx]
    refine dayRuns_triple dayOf D (D + 1) (D + 2) _ _ _ ?_ ?_ (by simp)
      hmemA hmemB ?_ (by omega) (by omega)
    · intro hn
      have hl := congrArg List.length hn
      rw [hlenA] at hl
      simp at hl
    · intro hn
      have hl := congrArg List.length hn
      rw [hlenB] at hl
      simp at hl
    · intro t ht
      rcases List.mem_cons.mp ht with rfl | ht2
      · exact hmemC
      · simp at ht2
  have hheadA : dayOf ((((List.range 24).map
      (fun k => D * 86400 + k * 3600))).headD 0) = D := by
    apply hmemA
    apply headD_mem
    intro hn
    have hl := congrArg List.length hn
    rw [hlenA] at hl
    simp at hl
  have hheadB : dayOf ((((List.range 24).map
      (fun k => D * 86400 + (24 + k) * 3600))).headD 0) = D + 1 := by
    apply hmemB
    apply headD_mem
    intro hn
    have hl := congrArg List.length hn
    rw [hlenB] at hl
    simp at hl
  have hsndA : ((((List.range 24).map (fun k => D * 86400 + k * 3600)).zip
      (c.take 24)).map Prod.snd) = c.take 24 :=
    List.map_snd_zip _ _ (by rw [hlenA, hlenTA])
  have hsndB : ((((List.range 24).map (fun k => D * 86400 + (24 + k) * 3600)).zip
      ((c.drop 24).take 24)).map Prod.snd) = (c.drop 24).take 24 :=
    List.map_snd_zip _ _ (by rw [hlenB, hlenTB])
  rw [integrate_joined_data_ok 1 f 3600 hdx]
  simp only [if_neg (by norm_num : ¬(1:Nat) = 0), if_neg (by norm_num : ¬(1:Nat) < 1)]
  rw [show List.range 1 = [0] by decide]
  simp only [List.map_cons, List.map_nil]
  rw [hc, hruns, hrunsIdx]
  have hc36 : ((3600 : Nat) : ℝ) = 3600 := by norm_num
  rw [hc36]
  simp only [List.map_cons, List.map_nil, List.headD_cons]
  rw [hheadA, hheadB, hmemC, hsndA, hsndB]
  simp only [List.dropLast, List.map_cons, List.map_nil]

/-- Witness for the amended C2 at a concrete 49-sample frame. -/
theorem c2_witness :
    c2wFrame.index = (List.range 49).map (fun k => 0 * 86400 + k * 3600) ∧
    getCol c2wFrame (ColName.irradiation 0) = List.replicate 49 0 ∧
    (List.replicate 49 (0 : ℝ)).length = 49 ∧
    integrate_joined_data 1 c2wFrame = Except.ok
      ⟨[0, 0 + 1],
        [(ColName.integrated 0,
          [trapezoid 3600 ((List.replicate 49 (0 : ℝ)).take 24) / 3600000,
           trapezoid 3600 (((List.replicate 49 (0 : ℝ)).drop 24).take 24) / 3600000])]⟩ :=
  ⟨rfl, rfl, by simp,
    c2_amended_two_day_rows 0 c2wFrame (List.replicate 49 0) rfl rfl (by simp)⟩

end Sunposition

